import Mathlib

/-!
Verification development for the extendable Kubernetes MCP server
(`pkg/mcp/extendable_server.go`, `pkg/http/authorization.go`).

The reconciliation core (`reloadKubernetesClusterProvider`), the
applicability filter (`Configuration.isToolApplicable`) and the HTTP target
extraction (`extractTargetFromRequest`, `validateTokenWithKubernetes`) are
embedded shallowly.  External collaborators (the Kubernetes provider, the
go-sdk protocol server, the JSON decoder) appear as parameters or as
abstract success/failure results; operations issued against the protocol
server are recorded as an explicit trace.
-/

set_option maxHeartbeats 1000000
set_option linter.unusedVariables false

/-- Tool annotations carried by a tool definition: the read-only and
destructive hints, each an optional boolean (`*bool` in Go, dereferenced
with default `false`). -/
structure ToolAnnotations where
  readOnlyHint : Option Bool
  destructiveHint : Option Bool
  deriving DecidableEq, Repr

/-- The part of a tool definition the reconciliation core observes: its
name, its annotations, the parameter names of its input schema, and whether
it is the meta-tool that lists available targets. -/
structure Tool where
  name : String
  annotations : ToolAnnotations
  inputSchemaParams : List String
  isTargetList : Bool
  deriving DecidableEq, Repr

/-- A server tool wraps a tool definition (handlers are not observed by any
of the properties below and are omitted). -/
structure ServerTool where
  tool : Tool
  deriving DecidableEq, Repr

/-- The configuration fields consulted by `isToolApplicable` in
`extendable_server.go`.  Go's nil/non-nil slice distinction for
`EnabledTools` and `DisabledTools` is kept as `Option (List String)`:
`none` is a nil slice, `some l` a non-nil slice with elements `l`. -/
structure Configuration where
  readOnly : Bool
  disableDestructive : Bool
  enabledTools : Option (List String)
  disabledTools : Option (List String)
  deriving DecidableEq, Repr

/-- Direct translation of `Configuration.isToolApplicable` from
`extendable_server.go` (lines 52-66): four guard clauses returning `false`,
then `true`.  `ptr.Deref p false` is `Option.getD p false`; `slice != nil`
is `Option.isSome`; `slices.Contains` is `List.contains`. -/
def Configuration.isToolApplicable (c : Configuration) (t : ServerTool) : Bool :=
  if c.readOnly && !(t.tool.annotations.readOnlyHint.getD false) then false
  else if c.disableDestructive && (t.tool.annotations.destructiveHint.getD false) then false
  else if c.enabledTools.isSome && !((c.enabledTools.getD []).contains t.tool.name) then false
  else if c.disabledTools.isSome && ((c.disabledTools.getD []).contains t.tool.name) then false
  else true

/-- Modelled from the spec: `CompositeFilter` (used at
`extendable_server.go:173` but whose definition file is not in the
sources).  Spec §4.1: "Composing filters is done by logical AND across all
active filter predicates". -/
def CompositeFilter (filters : List (ServerTool → Bool)) (t : ServerTool) : Bool :=
  filters.all (fun f => f t)

/-- Modelled from the spec: `ShouldIncludeTargetListTool` (used at
`extendable_server.go:175`, definition file not in the sources).  Spec
§4.1: the meta-tool that lists available targets "is applicable if and only
if there are two or more targets currently resolved"; other tools are not
affected by this predicate. -/
def ShouldIncludeTargetListTool (paramName : String) (targets : List String)
    (t : ServerTool) : Bool :=
  if t.tool.isTargetList then decide (2 ≤ targets.length) else true

/-- Modelled from the spec: `WithTargetParameter` (used at
`extendable_server.go:178`, definition file not in the sources).  Spec
§4.2: when more than one target exists the mutator adds an optional
parameter named `parameterName` to the tool's input schema (and wraps the
handler, which no property below observes); with at most one target the
tool passes through unchanged.  Name and annotations are preserved. -/
def WithTargetParameter (defaultTarget paramName : String) (targets : List String)
    (t : ServerTool) : ServerTool :=
  if 1 < targets.length then
    { t with tool := { t.tool with inputSchemaParams := t.tool.inputSchemaParams ++ [paramName] } }
  else t

/-- Operations the reconciliation pass issues against its collaborators:
`RemoveTools` and `AddTool` on the go-sdk server, `WatchTargets` on the
provider.  `report` is a diagnostic/logging report; it is representable in
the trace so that its absence is a provable fact about the code. -/
inductive ServerOp where
  | removeTools (names : List String)
  | addTool (name : String)
  | watchTargets
  | report (msg : String)
  deriving DecidableEq, Repr

/-- The mutable state of `Server` the reconciliation pass touches:
`enabledTools` (the stored previous-names bookkeeping) and the set of tool
names currently installed in the go-sdk server, in installation order. -/
structure ReconcileState where
  enabledTools : List String
  serverNames : List String
  deriving DecidableEq, Repr

/-- Result of one reconciliation pass: the state after the pass, the trace
of operations issued, and the error returned (if any). -/
structure ReloadResult where
  state : ReconcileState
  trace : List ServerOp
  err : Option String
  deriving DecidableEq, Repr

/-- The inputs one reconciliation pass draws from its collaborators:
the configuration, the catalog (each toolset's `GetTools` result, in
order), whether `NewProvider` succeeds, the `GetTargets` result, and the
provider's default target and target-parameter name. -/
structure PassInputs where
  config : Configuration
  catalog : List (List ServerTool)
  providerResult : Except String Unit
  targetsResult : Except String (List String)
  defaultTarget : String
  targetParameterName : String
  deriving Repr

/-- The Computing phase of `reloadKubernetesClusterProvider` (lines
188-200): iterate every toolset, mutate each tool, keep those passing the
composite filter.  The nested append loop equals mapping the mutator over
the concatenated catalog and filtering. -/
def applicableOf (inp : PassInputs) (targets : List String) : List ServerTool :=
  ((inp.catalog.flatten).map
      (WithTargetParameter inp.defaultTarget inp.targetParameterName targets)).filter
    (CompositeFilter
      [inp.config.isToolApplicable,
       ShouldIncludeTargetListTool inp.targetParameterName targets])

/-- The new `s.enabledTools` list built by the Computing phase: the names
of the applicable tools, in order, with multiplicity. -/
def newNamesOf (inp : PassInputs) (targets : List String) : List String :=
  (applicableOf inp targets).map (fun t => t.tool.name)

/-- The Diffing phase (lines 203-208): previously enabled names not among
the new names. -/
def toRemoveOf (previousTools newNames : List String) : List String :=
  previousTools.filter (fun old => !(newNames.contains old))

/-- Effect of go-sdk `AddTool` on the installed name list: a tool with an
already-installed name replaces it (name set unchanged), a new name is
appended. -/
def addToolName (names : List String) (n : String) : List String :=
  if names.contains n then names else names ++ [n]

/-- The Applying add loop (lines 211-217): convert each applicable tool via
`ServerToolToGoSdkTool` (modelled from the spec as an abstract conversion
that may fail, its definition file not being in the sources) and add it;
a conversion error aborts the loop, returning the names installed so far,
the add operations already issued, and the wrapped error message. -/
def addLoop (convert : ServerTool → Except String Unit) :
    List ServerTool → List String →
    Except (List String × List ServerOp × String) (List String × List ServerOp)
  | [], names => .ok (names, [])
  | t :: ts, names =>
    match convert t with
    | .error e => .error (names, [], "failed to convert tool " ++ t.tool.name ++ ": " ++ e)
    | .ok _ =>
      match addLoop convert ts (addToolName names t.tool.name) with
      | .error (ns, ops, e) => .error (ns, ServerOp.addTool t.tool.name :: ops, e)
      | .ok (ns, ops) => .ok (ns, ServerOp.addTool t.tool.name :: ops)

/-- Shallow embedding of `reloadKubernetesClusterProvider`
(`extendable_server.go` lines 154-222).  In order: `NewProvider` (abort on
error, state untouched), `GetTargets` (abort on error, state untouched),
the Computing phase, the Diffing phase, `RemoveTools`, the add loop (a
conversion error returns after the removals and the `enabledTools`
update have already taken effect), and finally `WatchTargets`. -/
def reloadKubernetesClusterProvider (convert : ServerTool → Except String Unit)
    (inp : PassInputs) (s : ReconcileState) : ReloadResult :=
  match inp.providerResult with
  | .error e => ⟨s, [], some e⟩
  | .ok _ =>
    match inp.targetsResult with
    | .error e => ⟨s, [], some e⟩
    | .ok targets =>
      let previousTools := s.enabledTools
      let applicableTools := applicableOf inp targets
      let newNames := newNamesOf inp targets
      let toolsToRemove := toRemoveOf previousTools newNames
      let serverAfterRemove := s.serverNames.filter (fun n => !(toolsToRemove.contains n))
      match addLoop convert applicableTools serverAfterRemove with
      | .error (ns, ops, e) =>
        ⟨⟨newNames, ns⟩, ServerOp.removeTools toolsToRemove :: ops, some e⟩
      | .ok (ns, ops) =>
        ⟨⟨newNames, ns⟩,
          ServerOp.removeTools toolsToRemove :: (ops ++ [ServerOp.watchTargets]), none⟩

/-- A JSON value as observed by `extractTargetFromRequest`: the code only
distinguishes strings (via the `.(string)` type assertion) from everything
else. -/
inductive JSONValue where
  | str (s : String)
  | boolean (b : Bool)
  | number
  | null
  | array
  | object
  deriving DecidableEq, Repr

/-- The decoded shape `{"params": {"arguments": {...}}}` from
`authorization.go` lines 47-51: the arguments map (association list).  A
valid JSON body lacking `params` or `arguments` decodes to the zero value,
an empty list. -/
structure MCPRequestParams where
  arguments : List (String × JSONValue)
  deriving DecidableEq, Repr

deriving instance DecidableEq for Except

/-- An HTTP request as observed by `extractTargetFromRequest`: `none` is a
nil body; `some (.error e)` is a body whose read (`io.ReadAll`) fails with
`e`; `some (.ok b)` is a body whose read yields the bytes `b`. -/
structure HttpRequest where
  body : Option (Except String String)
  deriving DecidableEq, Repr

/-- Shallow embedding of `extractTargetFromRequest` (`authorization.go`
lines 31-64), parametric in the JSON decoder (`encoding/json` is external;
`unmarshal b = none` models an `Unmarshal` error).  A nil body yields
`("", nil)`; a body-read error is returned; an unparseable body yields
`("", nil)`; the `targetName` argument type-asserted to a string is
returned, anything else yields `("", nil)`. -/
def extractTargetFromRequest (unmarshal : String → Option MCPRequestParams)
    (r : HttpRequest) (targetName : String) : Except String String :=
  match r.body with
  | none => .ok ""
  | some (.error e) => .error e
  | some (.ok b) =>
    match unmarshal b with
    | none => .ok ""
    | some params =>
      match params.arguments.lookup targetName with
      | some (JSONValue.str s) => .ok s
      | _ => .ok ""

/-- Shallow embedding of `validateTokenWithKubernetes` (`authorization.go`
lines 153-161), parametric in the downstream validation
`claims.ValidateWithKubernetesApi` (`verify`, taking the cluster value).
An extraction error is only logged; the zero-value cluster `""` returned
alongside it is passed on to the Kubernetes API validation. -/
def validateTokenWithKubernetes (unmarshal : String → Option MCPRequestParams)
    (verify : String → Option String) (r : HttpRequest) (targetName : String) :
    Option String :=
  match extractTargetFromRequest unmarshal r targetName with
  | .ok cluster => verify cluster
  | .error _ => verify ""

/-- Recognizer for remove operations in a trace. -/
def ServerOp.isRemove : ServerOp → Bool
  | .removeTools _ => true
  | _ => false

/-- Recognizer for add operations in a trace. -/
def ServerOp.isAdd : ServerOp → Bool
  | .addTool _ => true
  | _ => false

/-- Recognizer for diagnostic report operations in a trace. -/
def ServerOp.isReport : ServerOp → Bool
  | .report _ => true
  | _ => false

/-- Sample tool named "a", annotated read-only and non-destructive. -/
def toolA : ServerTool := ⟨⟨"a", ⟨some true, some false⟩, [], false⟩⟩

/-- Sample tool named "b", annotated read-only and non-destructive. -/
def toolB : ServerTool := ⟨⟨"b", ⟨some true, some false⟩, [], false⟩⟩

/-- Sample tool named "x", annotated read-only and non-destructive. -/
def toolX : ServerTool := ⟨⟨"x", ⟨some true, some false⟩, [], false⟩⟩

/-- Sample tool named "w", carrying no annotations at all. -/
def toolW : ServerTool := ⟨⟨"w", ⟨none, none⟩, [], false⟩⟩

/-- Sample permissive configuration: no policy restrictions. -/
def cfgOpen : Configuration := ⟨false, false, none, none⟩

/-- Sample read-only configuration. -/
def cfgReadOnly : Configuration := ⟨true, false, none, none⟩

/-- Sample configuration whose enabled-tools slice is non-nil but empty. -/
def cfgEmptyEnabled : Configuration := ⟨false, false, some [], none⟩

/-- Sample conversion that succeeds on every tool. -/
def convertAllOk : ServerTool → Except String Unit := fun _ => .ok ()

/-- Sample conversion failing exactly on the tool named "b". -/
def convertFailB : ServerTool → Except String Unit :=
  fun t => if t.tool.name == "b" then .error "bad schema" else .ok ()

/-- Sample pass inputs: permissive configuration, one toolset containing
only `toolB`, provider and targets resolving fine with single target "t1". -/
def inpB : PassInputs := ⟨cfgOpen, [[toolB]], .ok (), .ok ["t1"], "t1", "cluster"⟩

/-- Sample pass inputs whose targets query fails. -/
def inpFailTargets : PassInputs :=
  ⟨cfgOpen, [[toolB]], .ok (), .error "provider unreachable", "t1", "cluster"⟩

/-- Sample pass inputs with the same tool name "x" contributed by two
different toolsets. -/
def inpDup : PassInputs := ⟨cfgOpen, [[toolX], [toolX]], .ok (), .ok ["t1"], "t1", "cluster"⟩

/-- Sample pass inputs under the read-only configuration with one
read-only tool and one unannotated tool. -/
def inpRO : PassInputs := ⟨cfgReadOnly, [[toolA, toolW]], .ok (), .ok ["t1"], "t1", "cluster"⟩

/-- Sample reconcile state: tool "a" enabled and installed. -/
def stateA : ReconcileState := ⟨["a"], ["a"]⟩

theorem mem_addToolName_self (names : List String) (n : String) : n ∈ addToolName names n := by
  by_cases h : n ∈ names
  · simp [addToolName, h]
  · simp [addToolName, h]

theorem mem_addToolName_of_mem (names : List String) (n m : String) (h : m ∈ names) :
    m ∈ addToolName names n := by
  by_cases h2 : n ∈ names
  · simp [addToolName, h2, h]
  · simp [addToolName, h2]
    exact Or.inl h

theorem addToolName_eq_of_mem (names : List String) (n : String) (h : n ∈ names) :
    addToolName names n = names := by
  simp [addToolName, h]

theorem addLoop_error_ops_adds (conv : ServerTool → Except String Unit) :
    ∀ (ts : List ServerTool) (names ns : List String) (ops : List ServerOp) (e : String),
      addLoop conv ts names = .error (ns, ops, e) → ∀ op ∈ ops, ∃ n, op = ServerOp.addTool n := by
  intro ts
  induction ts with
  | nil => intro names ns ops e h; simp [addLoop] at h
  | cons t ts ih =>
    intro names ns ops e h op hop
    cases hc : conv t with
    | error e2 =>
      simp only [addLoop, hc, Except.error.injEq, Prod.mk.injEq] at h
      obtain ⟨h1, h2, h3⟩ := h
      subst h2
      simp at hop
    | ok u =>
      cases hr : addLoop conv ts (addToolName names t.tool.name) with
      | error p =>
        obtain ⟨ns2, ops2, e2⟩ := p
        simp only [addLoop, hc, hr, Except.error.injEq, Prod.mk.injEq] at h
        obtain ⟨h1, h2, h3⟩ := h
        subst h2
        rcases List.mem_cons.mp hop with h4 | h4
        · exact ⟨t.tool.name, h4⟩
        · exact ih _ _ _ _ hr op h4
      | ok p =>
        obtain ⟨ns2, ops2⟩ := p
        simp [addLoop, hc, hr] at h

theorem addLoop_ok_ops (conv : ServerTool → Except String Unit) :
    ∀ (ts : List ServerTool) (names ns : List String) (ops : List ServerOp),
      addLoop conv ts names = .ok (ns, ops) →
      ops = ts.map (fun t => ServerOp.addTool t.tool.name) := by
  intro ts
  induction ts with
  | nil =>
    intro names ns ops h
    simp only [addLoop, Except.ok.injEq, Prod.mk.injEq] at h
    obtain ⟨h1, h2⟩ := h
    subst h2
    simp
  | cons t ts ih =>
    intro names ns ops h
    cases hc : conv t with
    | error e2 => simp [addLoop, hc] at h
    | ok u =>
      cases hr : addLoop conv ts (addToolName names t.tool.name) with
      | error p =>
        obtain ⟨ns2, ops2, e2⟩ := p
        simp [addLoop, hc, hr] at h
      | ok p =>
        obtain ⟨ns2, ops2⟩ := p
        simp only [addLoop, hc, hr, Except.ok.injEq, Prod.mk.injEq] at h
        obtain ⟨h1, h2⟩ := h
        subst h2
        simp [ih _ _ _ hr]

theorem addLoop_ok_convert (conv : ServerTool → Except String Unit) :
    ∀ (ts : List ServerTool) (names ns : List String) (ops : List ServerOp),
      addLoop conv ts names = .ok (ns, ops) →
      ∀ t ∈ ts, ∃ u, conv t = .ok u := by
  intro ts
  induction ts with
  | nil => intro names ns ops h t ht; simp at ht
  | cons t ts ih =>
    intro names ns ops h t2 ht2
    cases hc : conv t with
    | error e2 => simp [addLoop, hc] at h
    | ok u =>
      cases hr : addLoop conv ts (addToolName names t.tool.name) with
      | error p =>
        obtain ⟨ns2, ops2, e2⟩ := p
        simp [addLoop, hc, hr] at h
      | ok p =>
        obtain ⟨ns2, ops2⟩ := p
        rcases List.mem_cons.mp ht2 with h4 | h4
        · subst h4; exact ⟨u, hc⟩
        · exact ih _ _ _ hr t2 h4

theorem addLoop_ok_names_mem (conv : ServerTool → Except String Unit) :
    ∀ (ts : List ServerTool) (names ns : List String) (ops : List ServerOp),
      addLoop conv ts names = .ok (ns, ops) →
      (∀ m ∈ names, m ∈ ns) ∧ (∀ t ∈ ts, t.tool.name ∈ ns) := by
  intro ts
  induction ts with
  | nil =>
    intro names ns ops h
    simp only [addLoop, Except.ok.injEq, Prod.mk.injEq] at h
    obtain ⟨h1, h2⟩ := h
    subst h1
    exact ⟨fun m hm => hm, fun t ht => absurd ht (List.not_mem_nil t)⟩
  | cons t ts ih =>
    intro names ns ops h
    cases hc : conv t with
    | error e2 => simp [addLoop, hc] at h
    | ok u =>
      cases hr : addLoop conv ts (addToolName names t.tool.name) with
      | error p =>
        obtain ⟨ns2, ops2, e2⟩ := p
        simp [addLoop, hc, hr] at h
      | ok p =>
        obtain ⟨ns2, ops2⟩ := p
        simp only [addLoop, hc, hr, Except.ok.injEq, Prod.mk.injEq] at h
        obtain ⟨h1, h2⟩ := h
        subst h1
        obtain ⟨hsup, hmem⟩ := ih _ _ _ hr
        refine ⟨fun m hm => hsup m (mem_addToolName_of_mem names t.tool.name m hm), ?_⟩
        intro t2 ht2
        rcases List.mem_cons.mp ht2 with h4 | h4
        · subst h4
          exact hsup t2.tool.name (mem_addToolName_self names t2.tool.name)
        · exact hmem t2 h4

theorem addLoop_noop (conv : ServerTool → Except String Unit) :
    ∀ (ts : List ServerTool) (names : List String),
      (∀ t ∈ ts, t.tool.name ∈ names) → (∀ t ∈ ts, ∃ u, conv t = .ok u) →
      addLoop conv ts names = .ok (names, ts.map (fun t => ServerOp.addTool t.tool.name)) := by
  intro ts
  induction ts with
  | nil => intro names h1 h2; simp [addLoop]
  | cons t ts ih =>
    intro names h1 h2
    obtain ⟨u, hu⟩ := h2 t (List.mem_cons_self t ts)
    have hmemname : t.tool.name ∈ names := h1 t (List.mem_cons_self t ts)
    have hname : addToolName names t.tool.name = names :=
      addToolName_eq_of_mem names t.tool.name hmemname
    simp only [addLoop, hu, hname]
    rw [ih names (fun t2 ht2 => h1 t2 (List.mem_cons_of_mem t ht2))
        (fun t2 ht2 => h2 t2 (List.mem_cons_of_mem t ht2))]
    simp

theorem reload_resolving_ok (conv : ServerTool → Except String Unit) (inp : PassInputs)
    (s : ReconcileState) (targets : List String)
    (hp : inp.providerResult = .ok ()) (ht : inp.targetsResult = .ok targets) :
    reloadKubernetesClusterProvider conv inp s =
      match addLoop conv (applicableOf inp targets)
          (s.serverNames.filter
            (fun n => !((toRemoveOf s.enabledTools (newNamesOf inp targets)).contains n))) with
      | .error (ns, ops, e) =>
        ⟨⟨newNamesOf inp targets, ns⟩,
          ServerOp.removeTools (toRemoveOf s.enabledTools (newNamesOf inp targets)) :: ops, some e⟩
      | .ok (ns, ops) =>
        ⟨⟨newNamesOf inp targets, ns⟩,
          ServerOp.removeTools (toRemoveOf s.enabledTools (newNamesOf inp targets)) ::
            (ops ++ [ServerOp.watchTargets]), none⟩ := by
  unfold reloadKubernetesClusterProvider
  rw [hp, ht]

theorem reload_err_none_inv (conv : ServerTool → Except String Unit) (inp : PassInputs)
    (s : ReconcileState) (h : (reloadKubernetesClusterProvider conv inp s).err = none) :
    ∃ targets ns ops,
      inp.providerResult = .ok () ∧ inp.targetsResult = .ok targets ∧
      addLoop conv (applicableOf inp targets)
          (s.serverNames.filter
            (fun n => !((toRemoveOf s.enabledTools (newNamesOf inp targets)).contains n))) =
        .ok (ns, ops) ∧
      reloadKubernetesClusterProvider conv inp s =
        ⟨⟨newNamesOf inp targets, ns⟩,
          ServerOp.removeTools (toRemoveOf s.enabledTools (newNamesOf inp targets)) ::
            (ops ++ [ServerOp.watchTargets]), none⟩ := by
  cases hp : inp.providerResult with
  | error e => simp [reloadKubernetesClusterProvider, hp] at h
  | ok u =>
    cases hts : inp.targetsResult with
    | error e => simp [reloadKubernetesClusterProvider, hp, hts] at h
    | ok targets =>
      have hp2 : inp.providerResult = .ok () := by cases u; exact hp
      have hd := reload_resolving_ok conv inp s targets hp2 hts
      cases hr : addLoop conv (applicableOf inp targets)
          (s.serverNames.filter
            (fun n => !((toRemoveOf s.enabledTools (newNamesOf inp targets)).contains n))) with
      | error p =>
        obtain ⟨ns2, ops2, e2⟩ := p
        rw [hd, hr] at h
        simp at h
      | ok p =>
        obtain ⟨ns2, ops2⟩ := p
        rw [hr] at hd
        exact ⟨targets, ns2, ops2, by cases u; rfl, rfl, hr, by simpa using hd⟩

/-- C2: if the Target Resolver fails during the Resolving phase (provider
construction or the targets query returns an error), the reconciliation
pass aborts with an error, issues no operation against the protocol
server, and both the installed tool set and the stored enabled-tool-names
list remain exactly as they were before the pass began. -/
theorem reload_resolving_failure_preserves_state
    (conv : ServerTool → Except String Unit) (inp : PassInputs) (s : ReconcileState)
    (h : (∃ e, inp.providerResult = .error e) ∨ (∃ e, inp.targetsResult = .error e)) :
    (reloadKubernetesClusterProvider conv inp s).state = s ∧
    (reloadKubernetesClusterProvider conv inp s).trace = [] ∧
    (reloadKubernetesClusterProvider conv inp s).err.isSome = true := by
  rcases h with ⟨e, he⟩ | ⟨e, he⟩
  · simp [reloadKubernetesClusterProvider, he]
  · cases hp : inp.providerResult with
    | error e2 => simp [reloadKubernetesClusterProvider, hp]
    | ok u => simp [reloadKubernetesClusterProvider, hp, he]

/-- Witness for C2: at the concrete inputs `inpFailTargets` (targets query
failing) and state `stateA`, nothing changes and the error surfaces. -/
theorem reload_resolving_failure_preserves_state_witness :
    ((∃ e, inpFailTargets.providerResult = Except.error e) ∨
      (∃ e, inpFailTargets.targetsResult = Except.error e)) ∧
    (reloadKubernetesClusterProvider convertAllOk inpFailTargets stateA).state = stateA ∧
    (reloadKubernetesClusterProvider convertAllOk inpFailTargets stateA).trace = [] ∧
    (reloadKubernetesClusterProvider convertAllOk inpFailTargets stateA).err.isSome = true := by
  have h : (∃ e, inpFailTargets.providerResult = Except.error e) ∨
      (∃ e, inpFailTargets.targetsResult = Except.error e) :=
    Or.inr ⟨"provider unreachable", rfl⟩
  exact ⟨h, reload_resolving_failure_preserves_state convertAllOk inpFailTargets stateA h⟩

/-- C5: for every configuration with read-only mode enabled and every
catalog, each tool in the applicable set computed by a reconciliation pass
has its read-only annotation equal to true. -/
theorem readonly_config_applicable_tools_readonly (inp : PassInputs) (targets : List String)
    (t : ServerTool) (hro : inp.config.readOnly = true) (ht : t ∈ applicableOf inp targets) :
    t.tool.annotations.readOnlyHint = some true := by
  have hf := (List.mem_filter.mp ht).2
  simp only [CompositeFilter, List.all_cons, List.all_nil, Bool.and_true, Bool.and_eq_true] at hf
  obtain ⟨h1, h2⟩ := hf
  cases hh : t.tool.annotations.readOnlyHint with
  | none => simp [Configuration.isToolApplicable, hro, hh] at h1
  | some b =>
    cases b with
    | false => simp [Configuration.isToolApplicable, hro, hh] at h1
    | true => rfl

/-- Witness for C5: under the read-only configuration of `inpRO`, the tool
`toolA` is in the applicable set and its read-only annotation is true. -/
theorem readonly_config_applicable_tools_readonly_witness :
    inpRO.config.readOnly = true ∧ toolA ∈ applicableOf inpRO ["t1"] ∧
    toolA.tool.annotations.readOnlyHint = some true :=
  ⟨by decide, by decide,
    readonly_config_applicable_tools_readonly inpRO ["t1"] toolA (by decide) (by decide)⟩

/-- C6 counterexample: the claim says an empty enabled-tool-names
collection imposes no restriction, but with a present-but-empty slice
(`some []`) the filter excludes `toolX` although every other rule passes. -/
theorem enabled_tools_empty_collection_cex :
    cfgEmptyEnabled.isToolApplicable toolX = false ∧
    cfgEmptyEnabled.enabledTools = some [] ∧
    cfgEmptyEnabled.readOnly = false ∧ cfgEmptyEnabled.disableDestructive = false ∧
    cfgEmptyEnabled.disabledTools = none := by decide

/-- C6 amended: with the other three rules passing trivially, the filter
excludes the tool exactly when the enabled-tool-names slice is present
(non-nil) and does not contain the tool's name; a nil slice imposes no
restriction, while a present-but-empty slice excludes every tool. -/
theorem enabled_tools_rule_present_vs_nil (c : Configuration) (t : ServerTool)
    (h1 : c.readOnly = false) (h2 : c.disableDestructive = false)
    (h3 : c.disabledTools = none) :
    c.isToolApplicable t = false ↔
      (c.enabledTools.isSome = true ∧
        (c.enabledTools.getD []).contains t.tool.name = false) := by
  cases he : c.enabledTools with
  | none => simp [Configuration.isToolApplicable, h1, h2, h3, he]
  | some l =>
    by_cases hc : t.tool.name ∈ l
    · simp [Configuration.isToolApplicable, h1, h2, h3, he, hc]
    · simp [Configuration.isToolApplicable, h1, h2, h3, he, hc]

/-- Witness for C6 amended, instantiated at the present-but-empty slice
configuration and `toolX`. -/
theorem enabled_tools_rule_present_vs_nil_witness :
    cfgEmptyEnabled.readOnly = false ∧
    (cfgEmptyEnabled.isToolApplicable toolX = false ↔
      (cfgEmptyEnabled.enabledTools.isSome = true ∧
        (cfgEmptyEnabled.enabledTools.getD []).contains toolX.tool.name = false)) :=
  ⟨by decide,
    enabled_tools_rule_present_vs_nil cfgEmptyEnabled toolX (by decide) (by decide) (by decide)⟩

/-- C10: target extraction for token validation returns an error exactly
when reading the request body fails; an unparseable body or an absent or
non-string target parameter yields the empty string with no error, and the
Kubernetes API token validation then proceeds with the empty (default)
target in every such case. -/
theorem extract_target_error_iff_read_failure
    (unmarshal : String → Option MCPRequestParams) (r : HttpRequest) (name : String) :
    ((∃ e, extractTargetFromRequest unmarshal r name = .error e) ↔
      (∃ e, r.body = some (.error e))) ∧
    (∀ b, r.body = some (.ok b) → unmarshal b = none →
      extractTargetFromRequest unmarshal r name = .ok "") ∧
    (∀ b params, r.body = some (.ok b) → unmarshal b = some params →
      (∀ s, params.arguments.lookup name ≠ some (JSONValue.str s)) →
      extractTargetFromRequest unmarshal r name = .ok "") ∧
    (∀ verify, extractTargetFromRequest unmarshal r name = .ok "" →
      validateTokenWithKubernetes unmarshal verify r name = verify "") ∧
    (∀ verify e, extractTargetFromRequest unmarshal r name = .error e →
      validateTokenWithKubernetes unmarshal verify r name = verify "") := by
  refine ⟨?_, ?_, ?_, ?_, ?_⟩
  · cases hb : r.body with
    | none => simp [extractTargetFromRequest, hb]
    | some res =>
      cases res with
      | error e => simp [extractTargetFromRequest, hb]
      | ok b =>
        cases hu : unmarshal b with
        | none => simp [extractTargetFromRequest, hb, hu]
        | some params =>
          cases hl : params.arguments.lookup name with
          | none => simp [extractTargetFromRequest, hb, hu, hl]
          | some v =>
            cases v with
            | str s => simp [extractTargetFromRequest, hb, hu, hl]
            | boolean b2 => simp [extractTargetFromRequest, hb, hu, hl]
            | number => simp [extractTargetFromRequest, hb, hu, hl]
            | null => simp [extractTargetFromRequest, hb, hu, hl]
            | array => simp [extractTargetFromRequest, hb, hu, hl]
            | object => simp [extractTargetFromRequest, hb, hu, hl]
  · intro b hb hu
    simp [extractTargetFromRequest, hb, hu]
  · intro b params hb hu hl
    cases hlk : params.arguments.lookup name with
    | none => simp [extractTargetFromRequest, hb, hu, hlk]
    | some v =>
      cases v with
      | str s => exact absurd hlk (hl s)
      | boolean b2 => simp [extractTargetFromRequest, hb, hu, hlk]
      | number => simp [extractTargetFromRequest, hb, hu, hlk]
      | null => simp [extractTargetFromRequest, hb, hu, hlk]
      | array => simp [extractTargetFromRequest, hb, hu, hlk]
      | object => simp [extractTargetFromRequest, hb, hu, hlk]
  · intro verify hok
    simp [validateTokenWithKubernetes, hok]
  · intro verify e herr
    simp [validateTokenWithKubernetes, herr]

/-- Witness for C10: a body that is not valid JSON yields the empty target
with no error, and the Kubernetes API validation runs with the empty
(default) target. -/
theorem extract_target_error_iff_read_failure_witness :
    extractTargetFromRequest (fun _ => none) ⟨some (Except.ok "not json")⟩ "cluster" =
      Except.ok "" ∧
    validateTokenWithKubernetes (fun _ => none) (fun c => some c)
      ⟨some (Except.ok "not json")⟩ "cluster" = some "" := by
  have h := extract_target_error_iff_read_failure (fun _ => none)
    ⟨some (Except.ok "not json")⟩ "cluster"
  have h1 := h.2.1 "not json" rfl rfl
  exact ⟨h1, h.2.2.2.1 (fun c => some c) h1⟩

/-- C1 counterexample: at these concrete inputs the conversion of tool "b"
fails during Applying and the pass aborts with an error, but the
previously advertised tool "a" has already been removed from the server,
and the stored previous-names bookkeeping has already been rewritten, so
the previous tool set is not kept intact. -/
theorem reload_conversion_failure_cex :
    (reloadKubernetesClusterProvider convertFailB inpB stateA).err.isSome = true ∧
    (reloadKubernetesClusterProvider convertFailB inpB stateA).state.enabledTools ≠
      stateA.enabledTools ∧
    (reloadKubernetesClusterProvider convertFailB inpB stateA).state.serverNames ≠
      stateA.serverNames ∧
    (reloadKubernetesClusterProvider convertFailB inpB stateA).trace =
      [ServerOp.removeTools ["a"]] := by decide

/-- C1 amended: if converting an applicable tool fails during the Applying
phase the reconciliation pass aborts with an error and the watch is not
re-armed, but the previous state is not preserved: the removals for
no-longer-applicable names and the adds preceding the failing tool have
already been issued, and the stored previous-names bookkeeping has already
been updated to the newly computed names. -/
theorem reload_conversion_failure_aborts_after_mutation
    (conv : ServerTool → Except String Unit) (inp : PassInputs) (s : ReconcileState)
    (targets ns : List String) (ops : List ServerOp) (e : String)
    (hp : inp.providerResult = .ok ()) (ht : inp.targetsResult = .ok targets)
    (ha : addLoop conv (applicableOf inp targets)
        (s.serverNames.filter
          (fun n => !((toRemoveOf s.enabledTools (newNamesOf inp targets)).contains n))) =
      .error (ns, ops, e)) :
    reloadKubernetesClusterProvider conv inp s =
      ⟨⟨newNamesOf inp targets, ns⟩,
        ServerOp.removeTools (toRemoveOf s.enabledTools (newNamesOf inp targets)) :: ops,
        some e⟩ ∧
    ServerOp.watchTargets ∉ (reloadKubernetesClusterProvider conv inp s).trace := by
  have hd := reload_resolving_ok conv inp s targets hp ht
  rw [ha] at hd
  have hd2 : reloadKubernetesClusterProvider conv inp s =
      ⟨⟨newNamesOf inp targets, ns⟩,
        ServerOp.removeTools (toRemoveOf s.enabledTools (newNamesOf inp targets)) :: ops,
        some e⟩ := by simpa using hd
  refine ⟨hd2, ?_⟩
  rw [hd2]
  intro hmem
  rcases List.mem_cons.mp hmem with hw | hw
  · simp at hw
  · obtain ⟨n, hn⟩ := addLoop_error_ops_adds conv _ _ _ _ _ ha ServerOp.watchTargets hw
    simp at hn

/-- Witness for C1 amended, at the concrete failing-conversion run. -/
theorem reload_conversion_failure_aborts_after_mutation_witness :
    reloadKubernetesClusterProvider convertFailB inpB stateA =
      ⟨⟨newNamesOf inpB ["t1"], []⟩,
        ServerOp.removeTools (toRemoveOf stateA.enabledTools (newNamesOf inpB ["t1"])) :: [],
        some "failed to convert tool b: bad schema"⟩ ∧
    ServerOp.watchTargets ∉ (reloadKubernetesClusterProvider convertFailB inpB stateA).trace :=
  reload_conversion_failure_aborts_after_mutation convertFailB inpB stateA ["t1"] [] []
    "failed to convert tool b: bad schema" rfl rfl (by decide)

/-- C3 counterexample: a pass aborted by a transient target-resolution
failure issues no operation at all, in particular no watch re-arm, so the
Target Resolver's change notification is not re-armed by that pass. -/
theorem reload_aborted_pass_no_watch_cex :
    (reloadKubernetesClusterProvider convertAllOk inpFailTargets stateA).err.isSome = true ∧
    (reloadKubernetesClusterProvider convertAllOk inpFailTargets stateA).trace = [] ∧
    ServerOp.watchTargets ∉
      (reloadKubernetesClusterProvider convertAllOk inpFailTargets stateA).trace := by decide

/-- C3 amended: the change-notification watch is re-armed exactly at the
end of a successful reconciliation pass; a pass aborted by a resolution or
conversion failure issues no watch re-arm. -/
theorem reload_watch_rearm_iff_success
    (conv : ServerTool → Except String Unit) (inp : PassInputs) (s : ReconcileState) :
    ServerOp.watchTargets ∈ (reloadKubernetesClusterProvider conv inp s).trace ↔
      (reloadKubernetesClusterProvider conv inp s).err = none := by
  cases hp : inp.providerResult with
  | error e => simp [reloadKubernetesClusterProvider, hp]
  | ok u =>
    cases hts : inp.targetsResult with
    | error e => simp [reloadKubernetesClusterProvider, hp, hts]
    | ok targets =>
      have hp2 : inp.providerResult = .ok () := by cases u; exact hp
      have hd := reload_resolving_ok conv inp s targets hp2 hts
      cases hr : addLoop conv (applicableOf inp targets)
          (s.serverNames.filter
            (fun n => !((toRemoveOf s.enabledTools (newNamesOf inp targets)).contains n))) with
      | error p =>
        obtain ⟨ns2, ops2, e2⟩ := p
        rw [hr] at hd
        have htr : (reloadKubernetesClusterProvider conv inp s).trace =
            ServerOp.removeTools (toRemoveOf s.enabledTools (newNamesOf inp targets)) :: ops2 := by
          rw [hd]
        have herr : (reloadKubernetesClusterProvider conv inp s).err = some e2 := by
          rw [hd]
        rw [htr, herr]
        constructor
        · intro hmem
          exfalso
          rcases List.mem_cons.mp hmem with hw | hw
          · simp at hw
          · obtain ⟨n, hn⟩ := addLoop_error_ops_adds conv _ _ _ _ _ hr ServerOp.watchTargets hw
            simp at hn
        · intro hnone
          simp at hnone
      | ok p =>
        obtain ⟨ns2, ops2⟩ := p
        rw [hr] at hd
        have htr : (reloadKubernetesClusterProvider conv inp s).trace =
            ServerOp.removeTools (toRemoveOf s.enabledTools (newNamesOf inp targets)) ::
              (ops2 ++ [ServerOp.watchTargets]) := by
          rw [hd]
        have herr : (reloadKubernetesClusterProvider conv inp s).err = none := by
          rw [hd]
        rw [htr, herr]
        simp

/-- C4 counterexample: with the same tool name "x" contributed by two
toolsets, the Computing phase performs no uniqueness tracking — the
duplicate name is appended twice to the bookkeeping, both copies are
installed, and no report operation is issued. -/
theorem reload_duplicate_names_cex :
    (reloadKubernetesClusterProvider convertAllOk inpDup ⟨[], []⟩).state.enabledTools =
      ["x", "x"] ∧
    (reloadKubernetesClusterProvider convertAllOk inpDup ⟨[], []⟩).trace.all
      (fun op => !op.isReport) = true ∧
    (reloadKubernetesClusterProvider convertAllOk inpDup ⟨[], []⟩).trace =
      [ServerOp.removeTools [], ServerOp.addTool "x", ServerOp.addTool "x",
        ServerOp.watchTargets] ∧
    (reloadKubernetesClusterProvider convertAllOk inpDup ⟨[], []⟩).err = none := by decide

/-- C4 amended: the Computing phase does not track tool names for
uniqueness and never reports a duplicate: no reconciliation pass issues a
report operation, and every applicable tool contributes its name to the
bookkeeping with multiplicity, in catalog order; the behavior on duplicate
names is deterministic because the pass is a pure function of its inputs
(the duplicate's add operation is issued last). -/
theorem reload_no_duplicate_tracking
    (conv : ServerTool → Except String Unit) (inp : PassInputs) (s : ReconcileState) :
    (∀ op ∈ (reloadKubernetesClusterProvider conv inp s).trace, op.isReport = false) ∧
    (∀ targets, inp.providerResult = .ok () → inp.targetsResult = .ok targets →
      (reloadKubernetesClusterProvider conv inp s).state.enabledTools =
        (applicableOf inp targets).map (fun t => t.tool.name)) := by
  constructor
  · intro op hop
    cases hp : inp.providerResult with
    | error e => simp [reloadKubernetesClusterProvider, hp] at hop
    | ok u =>
      cases hts : inp.targetsResult with
      | error e => simp [reloadKubernetesClusterProvider, hp, hts] at hop
      | ok targets =>
        have hp2 : inp.providerResult = .ok () := by cases u; exact hp
        have hd := reload_resolving_ok conv inp s targets hp2 hts
        cases hr : addLoop conv (applicableOf inp targets)
            (s.serverNames.filter
              (fun n => !((toRemoveOf s.enabledTools (newNamesOf inp targets)).contains n))) with
        | error p =>
          obtain ⟨ns2, ops2, e2⟩ := p
          rw [hr] at hd
          have htr : (reloadKubernetesClusterProvider conv inp s).trace =
              ServerOp.removeTools (toRemoveOf s.enabledTools (newNamesOf inp targets)) ::
                ops2 := by rw [hd]
          rw [htr] at hop
          rcases List.mem_cons.mp hop with hw | hw
          · subst hw; rfl
          · obtain ⟨n, hn⟩ := addLoop_error_ops_adds conv _ _ _ _ _ hr op hw
            subst hn; rfl
        | ok p =>
          obtain ⟨ns2, ops2⟩ := p
          rw [hr] at hd
          have htr : (reloadKubernetesClusterProvider conv inp s).trace =
              ServerOp.removeTools (toRemoveOf s.enabledTools (newNamesOf inp targets)) ::
                (ops2 ++ [ServerOp.watchTargets]) := by rw [hd]
          rw [htr] at hop
          rcases List.mem_cons.mp hop with hw | hw
          · subst hw; rfl
          · rcases List.mem_append.mp hw with hw2 | hw2
            · have hops := addLoop_ok_ops conv _ _ _ _ hr
              subst hops
              obtain ⟨t2, ht2, hn⟩ := List.mem_map.mp hw2
              subst hn; rfl
            · rcases List.mem_singleton.mp hw2 with rfl; rfl
  · intro targets hp hts
    have hd := reload_resolving_ok conv inp s targets hp hts
    cases hr : addLoop conv (applicableOf inp targets)
        (s.serverNames.filter
          (fun n => !((toRemoveOf s.enabledTools (newNamesOf inp targets)).contains n))) with
    | error p =>
      obtain ⟨ns2, ops2, e2⟩ := p
      rw [hr] at hd
      have : (reloadKubernetesClusterProvider conv inp s).state.enabledTools =
          newNamesOf inp targets := by rw [hd]
      rw [this]; rfl
    | ok p =>
      obtain ⟨ns2, ops2⟩ := p
      rw [hr] at hd
      have : (reloadKubernetesClusterProvider conv inp s).state.enabledTools =
          newNamesOf inp targets := by rw [hd]
      rw [this]; rfl

/-- Witness for C4 amended, at the duplicate-name catalog. -/
theorem reload_no_duplicate_tracking_witness :
    (∀ op ∈ (reloadKubernetesClusterProvider convertAllOk inpDup ⟨[], []⟩).trace,
      op.isReport = false) ∧
    (reloadKubernetesClusterProvider convertAllOk inpDup ⟨[], []⟩).state.enabledTools =
      (applicableOf inpDup ["t1"]).map (fun t => t.tool.name) := by
  have h := reload_no_duplicate_tracking convertAllOk inpDup ⟨[], []⟩
  exact ⟨h.1, h.2 ["t1"] rfl rfl⟩

theorem reload_trace_shape
    (conv : ServerTool → Except String Unit) (inp : PassInputs) (s : ReconcileState) :
    (reloadKubernetesClusterProvider conv inp s).trace = [] ∨
    ∃ r rest, (reloadKubernetesClusterProvider conv inp s).trace =
        ServerOp.removeTools r :: rest ∧ ∀ op ∈ rest, op.isRemove = false := by
  cases hp : inp.providerResult with
  | error e => left; simp [reloadKubernetesClusterProvider, hp]
  | ok u =>
    cases hts : inp.targetsResult with
    | error e => left; simp [reloadKubernetesClusterProvider, hp, hts]
    | ok targets =>
      right
      have hp2 : inp.providerResult = .ok () := by cases u; exact hp
      have hd := reload_resolving_ok conv inp s targets hp2 hts
      cases hr : addLoop conv (applicableOf inp targets)
          (s.serverNames.filter
            (fun n => !((toRemoveOf s.enabledTools (newNamesOf inp targets)).contains n))) with
      | error p =>
        obtain ⟨ns2, ops2, e2⟩ := p
        rw [hr] at hd
        refine ⟨toRemoveOf s.enabledTools (newNamesOf inp targets), ops2, by rw [hd], ?_⟩
        intro op hop
        obtain ⟨n, hn⟩ := addLoop_error_ops_adds conv _ _ _ _ _ hr op hop
        subst hn; rfl
      | ok p =>
        obtain ⟨ns2, ops2⟩ := p
        rw [hr] at hd
        refine ⟨toRemoveOf s.enabledTools (newNamesOf inp targets),
          ops2 ++ [ServerOp.watchTargets], by rw [hd], ?_⟩
        intro op hop
        rcases List.mem_append.mp hop with hw | hw
        · have hops := addLoop_ok_ops conv _ _ _ _ hr
          subst hops
          obtain ⟨t2, ht2, hn⟩ := List.mem_map.mp hw
          subst hn; rfl
        · rcases List.mem_singleton.mp hw with rfl; rfl

/-- C8: within one reconciliation pass, every remove operation issued
against the protocol server precedes every add operation issued by that
same pass. -/
theorem reload_removals_precede_adds
    (conv : ServerTool → Except String Unit) (inp : PassInputs) (s : ReconcileState)
    (i j : Nat) (op1 op2 : ServerOp)
    (h1 : (reloadKubernetesClusterProvider conv inp s).trace[i]? = some op1)
    (h2 : op1.isRemove = true)
    (h3 : (reloadKubernetesClusterProvider conv inp s).trace[j]? = some op2)
    (h4 : op2.isAdd = true) : i < j := by
  rcases reload_trace_shape conv inp s with hsh | ⟨r, rest, hsh, hrest⟩
  · rw [hsh] at h1; simp at h1
  · rw [hsh] at h1 h3
    have hi : i = 0 := by
      by_contra hne
      obtain ⟨i2, rfl⟩ := Nat.exists_eq_succ_of_ne_zero hne
      rw [List.getElem?_cons_succ] at h1
      have hmem : op1 ∈ rest := List.getElem?_mem h1
      rw [hrest op1 hmem] at h2
      exact Bool.false_ne_true h2
    subst hi
    cases j with
    | zero =>
      rw [List.getElem?_cons_zero] at h3
      injection h3 with h5
      subst h5
      simp [ServerOp.isAdd] at h4
    | succ j2 => exact Nat.succ_pos j2

/-- Witness for C8: at a concrete successful run the remove operation sits
at index 0 of the trace, the add operation at index 1, and 0 < 1. -/
theorem reload_removals_precede_adds_witness :
    (reloadKubernetesClusterProvider convertAllOk inpB stateA).trace[0]? =
      some (ServerOp.removeTools ["a"]) ∧
    (reloadKubernetesClusterProvider convertAllOk inpB stateA).trace[1]? =
      some (ServerOp.addTool "b") ∧ (0 : Nat) < 1 :=
  ⟨by decide, by decide,
    reload_removals_precede_adds convertAllOk inpB stateA 0 1 (ServerOp.removeTools ["a"])
      (ServerOp.addTool "b") (by decide) (by decide) (by decide) (by decide)⟩

/-- C7 counterexample: a pass that reaches the Diffing phase but hits a
conversion failure does not install every newly computed applicable tool:
here tool "b" is applicable, the pass reaches Diffing (provider and
targets resolve), yet no add operation for "b" is ever issued. -/
theorem reload_diffing_reinstall_cex :
    inpB.providerResult = Except.ok () ∧ inpB.targetsResult = Except.ok ["t1"] ∧
    toolB ∈ applicableOf inpB ["t1"] ∧
    ServerOp.addTool "b" ∉
      (reloadKubernetesClusterProvider convertFailB inpB stateA).trace := by decide

/-- C7 amended: for every reconciliation pass that reaches the Diffing
phase, the removed name set equals the previously advertised names minus
the newly computed names (set difference), whatever happens later; and
whenever the Applying phase completes without a conversion failure, every
tool of the newly computed applicable list is (re)installed via an add
operation, whether or not its name was already advertised. -/
theorem reload_diff_removals_and_reinstalls
    (conv : ServerTool → Except String Unit) (inp : PassInputs) (s : ReconcileState)
    (targets : List String)
    (hp : inp.providerResult = .ok ()) (ht : inp.targetsResult = .ok targets) :
    (∃ rest, (reloadKubernetesClusterProvider conv inp s).trace =
      ServerOp.removeTools (toRemoveOf s.enabledTools (newNamesOf inp targets)) :: rest) ∧
    (∀ n, n ∈ toRemoveOf s.enabledTools (newNamesOf inp targets) ↔
      (n ∈ s.enabledTools ∧ n ∉ newNamesOf inp targets)) ∧
    ((reloadKubernetesClusterProvider conv inp s).err = none →
      (reloadKubernetesClusterProvider conv inp s).trace =
        ServerOp.removeTools (toRemoveOf s.enabledTools (newNamesOf inp targets)) ::
          ((applicableOf inp targets).map (fun t => ServerOp.addTool t.tool.name) ++
            [ServerOp.watchTargets])) := by
  have hd := reload_resolving_ok conv inp s targets hp ht
  refine ⟨?_, ?_, ?_⟩
  · cases hr : addLoop conv (applicableOf inp targets)
        (s.serverNames.filter
          (fun n => !((toRemoveOf s.enabledTools (newNamesOf inp targets)).contains n))) with
    | error p =>
      obtain ⟨ns2, ops2, e2⟩ := p
      rw [hr] at hd
      exact ⟨ops2, by rw [hd]⟩
    | ok p =>
      obtain ⟨ns2, ops2⟩ := p
      rw [hr] at hd
      exact ⟨ops2 ++ [ServerOp.watchTargets], by rw [hd]⟩
  · intro n
    simp [toRemoveOf, List.mem_filter]
  · intro hok
    obtain ⟨targets2, ns, ops, hp2, ht2, hr, hd2⟩ := reload_err_none_inv conv inp s hok
    rw [ht] at ht2
    injection ht2 with hteq
    subst hteq
    have hops := addLoop_ok_ops conv _ _ _ _ hr
    subst hops
    rw [hd2]

/-- Witness for C7 amended, at a concrete successful run: tool "a" is
removed (advertised before, not recomputed), tool "b" is installed. -/
theorem reload_diff_removals_and_reinstalls_witness :
    (∃ rest, (reloadKubernetesClusterProvider convertAllOk inpB stateA).trace =
      ServerOp.removeTools (toRemoveOf stateA.enabledTools (newNamesOf inpB ["t1"])) :: rest) ∧
    ("a" ∈ toRemoveOf stateA.enabledTools (newNamesOf inpB ["t1"]) ↔
      ("a" ∈ stateA.enabledTools ∧ "a" ∉ newNamesOf inpB ["t1"])) ∧
    (reloadKubernetesClusterProvider convertAllOk inpB stateA).trace =
      ServerOp.removeTools (toRemoveOf stateA.enabledTools (newNamesOf inpB ["t1"])) ::
        ((applicableOf inpB ["t1"]).map (fun t => ServerOp.addTool t.tool.name) ++
          [ServerOp.watchTargets]) := by
  have h := reload_diff_removals_and_reinstalls convertAllOk inpB stateA ["t1"] rfl rfl
  exact ⟨h.1, h.2.1 "a", h.2.2 (by decide)⟩

/-- C9: if a reconciliation pass succeeds, a second consecutive pass with
the same configuration, catalog and resolved targets yields the same
advertised tool-name set and the same bookkeeping, succeeds as well, and
its remove operation removes no tools. -/
theorem reload_idempotent
    (conv : ServerTool → Except String Unit) (inp : PassInputs) (s : ReconcileState)
    (hok : (reloadKubernetesClusterProvider conv inp s).err = none) :
    (reloadKubernetesClusterProvider conv inp
        (reloadKubernetesClusterProvider conv inp s).state).state.serverNames =
      (reloadKubernetesClusterProvider conv inp s).state.serverNames ∧
    (reloadKubernetesClusterProvider conv inp
        (reloadKubernetesClusterProvider conv inp s).state).state.enabledTools =
      (reloadKubernetesClusterProvider conv inp s).state.enabledTools ∧
    (reloadKubernetesClusterProvider conv inp
        (reloadKubernetesClusterProvider conv inp s).state).err = none ∧
    (∃ rest, (reloadKubernetesClusterProvider conv inp
        (reloadKubernetesClusterProvider conv inp s).state).trace =
      ServerOp.removeTools [] :: rest) := by
  obtain ⟨targets, ns, ops, hp, ht, hr, hd⟩ := reload_err_none_inv conv inp s hok
  have hs1 : (reloadKubernetesClusterProvider conv inp s).state =
      ⟨newNamesOf inp targets, ns⟩ := by rw [hd]
  obtain ⟨hsup, hmem⟩ := addLoop_ok_names_mem conv _ _ _ _ hr
  have hconv := addLoop_ok_convert conv _ _ _ _ hr
  have hrm : toRemoveOf (newNamesOf inp targets) (newNamesOf inp targets) = [] := by
    simp [toRemoveOf]
  have hno := addLoop_noop conv (applicableOf inp targets) ns hmem hconv
  have hd2 := reload_resolving_ok conv inp ⟨newNamesOf inp targets, ns⟩ targets hp ht
  have hfilter : (ReconcileState.mk (newNamesOf inp targets) ns).serverNames.filter
      (fun n => !((toRemoveOf (ReconcileState.mk (newNamesOf inp targets) ns).enabledTools
        (newNamesOf inp targets)).contains n)) = ns := by
    dsimp only
    rw [hrm]
    simp
  rw [hfilter, hno] at hd2
  rw [hs1]
  have hstate : (reloadKubernetesClusterProvider conv inp
      ⟨newNamesOf inp targets, ns⟩).state = ⟨newNamesOf inp targets, ns⟩ := by rw [hd2]
  have herr : (reloadKubernetesClusterProvider conv inp
      ⟨newNamesOf inp targets, ns⟩).err = none := by rw [hd2]
  have htr : (reloadKubernetesClusterProvider conv inp
      ⟨newNamesOf inp targets, ns⟩).trace =
      ServerOp.removeTools (toRemoveOf (ReconcileState.mk (newNamesOf inp targets) ns).enabledTools
        (newNamesOf inp targets)) ::
        ((applicableOf inp targets).map (fun t => ServerOp.addTool t.tool.name) ++
          [ServerOp.watchTargets]) := by rw [hd2]
  refine ⟨by rw [hstate], by rw [hstate], herr, ?_⟩
  refine ⟨(applicableOf inp targets).map (fun t => ServerOp.addTool t.tool.name) ++
    [ServerOp.watchTargets], ?_⟩
  rw [htr]
  dsimp only
  rw [hrm]

/-- Witness for C9, at a concrete successful run with unchanged inputs. -/
theorem reload_idempotent_witness :
    (reloadKubernetesClusterProvider convertAllOk inpB
        (reloadKubernetesClusterProvider convertAllOk inpB stateA).state).state.serverNames =
      (reloadKubernetesClusterProvider convertAllOk inpB stateA).state.serverNames ∧
    (reloadKubernetesClusterProvider convertAllOk inpB
        (reloadKubernetesClusterProvider convertAllOk inpB stateA).state).state.enabledTools =
      (reloadKubernetesClusterProvider convertAllOk inpB stateA).state.enabledTools ∧
    (reloadKubernetesClusterProvider convertAllOk inpB
        (reloadKubernetesClusterProvider convertAllOk inpB stateA).state).err = none ∧
    (∃ rest, (reloadKubernetesClusterProvider convertAllOk inpB
        (reloadKubernetesClusterProvider convertAllOk inpB stateA).state).trace =
      ServerOp.removeTools [] :: rest) :=
  reload_idempotent convertAllOk inpB stateA (by decide)
